import Mathlib

/-!
Shallow embedding of the patient-records API in `src/main.py`.

Python floats are modelled as rationals (`ℚ`), Python ints as `ℤ`.
`round(x, 2)` is Python's round-half-to-even, modelled exactly on `ℚ`.
The persisted JSON document (a dict from patient id to record fields) is
modelled as an association list `Store` that preserves insertion order,
which is the iteration order of a Python dict.  Each HTTP handler becomes
a function from the loaded store (and its request parameters) to an
`Except ApiError` result; raising `HTTPException` before `save_data`
corresponds to returning `.error` and leaving the store as it was.
-/

namespace PatientsApp

/-- The gender values admitted by `Literal['male', 'female', 'other']`. -/
def genders : List String := ["male", "female", "other"]

/-- Python's `round` to an integer: round half to even (banker's rounding). -/
def pyRound (x : ℚ) : ℤ :=
  let n := ⌊x⌋
  let r := x - n
  if r < 1/2 then n
  else if 1/2 < r then n + 1
  else if n % 2 = 0 then n else n + 1

/-- Python's `round(x, 2)`: round to 2 decimal places. -/
def round2 (x : ℚ) : ℚ := (pyRound (100 * x) : ℚ) / 100

/-- The input fields of the `Patient` pydantic model (`src/main.py` lines 10-17). -/
structure Patient where
  id : String
  name : String
  city : String
  age : ℤ
  gender : String
  height : ℚ
  weight : ℚ
deriving Repr, DecidableEq

/-- The computed field `bmi` (`src/main.py` lines 19-22):
`round(self.weight / (self.height ** 2), 2)`. -/
def Patient.bmi (p : Patient) : ℚ := round2 (p.weight / p.height ^ 2)

/-- The verdict bucketing from `src/main.py` lines 26-34, as a function of the
(rounded) bmi value; `Patient.verdict` reads `self.bmi`. -/
def verdict_of (bmi : ℚ) : String :=
  if bmi < 18.5 then "Underweight"
  else if 18.5 ≤ bmi ∧ bmi < 24.9 then "Normal weight"
  else if 25 ≤ bmi ∧ bmi < 29.9 then "Overweight"
  else "Obesity"

/-- The computed field `verdict` (`src/main.py` lines 24-34). -/
def Patient.verdict (p : Patient) : String := verdict_of p.bmi

/-- The pydantic validation of `Patient` fields: the list of fields whose
`Field(...)` constraint is violated.  `id`, `name` and `city` are plain
`str` fields and carry no value constraint; `age` has `gt=0, lt=120`;
`gender` must be one of the three literals; `height` and `weight` have
`gt=0`. -/
def patientErrors (age : ℤ) (gender : String) (height weight : ℚ) : List String :=
  (if 0 < age ∧ age < 120 then [] else ["age"]) ++
  (if gender ∈ genders then [] else ["gender"]) ++
  (if 0 < height then [] else ["height"]) ++
  (if 0 < weight then [] else ["weight"])

/-- Constructing a `Patient(...)`: pydantic validates every field and raises a
`ValidationError` naming the offending fields, or returns the model. -/
def Patient.validate (id name city : String) (age : ℤ) (gender : String)
    (height weight : ℚ) : Except (List String) Patient :=
  match patientErrors age gender height weight with
  | [] => .ok ⟨id, name, city, age, gender, height, weight⟩
  | errs => .error errs

/-- One stored record: `patient.model_dump(exclude=['id'])`, i.e. every input
field except `id`, plus the computed fields `bmi` and `verdict` (pydantic's
`model_dump` includes `computed_field`s). -/
structure StoredPatient where
  name : String
  city : String
  age : ℤ
  gender : String
  height : ℚ
  weight : ℚ
  bmi : ℚ
  verdict : String
deriving Repr, DecidableEq

/-- `patient.model_dump(exclude=['id'])` (`src/main.py` lines 96 and 118). -/
def Patient.model_dump (p : Patient) : StoredPatient :=
  ⟨p.name, p.city, p.age, p.gender, p.height, p.weight, p.bmi, p.verdict⟩

/-- The persisted document `patients.json`: a dict from patient id to stored
record, in insertion order. -/
abbrev Store := List (String × StoredPatient)

/-- The errors the handlers raise via `HTTPException` (spec §7 taxonomy). -/
inductive ApiError where
  | validation (fields : List String)
  | notFound
  | conflict
  | invalidArgument (detail : String)
deriving Repr, DecidableEq

/-- `GET /patient/{patient_id}` (`src/main.py` lines 61-67). -/
def view_patient (store : Store) (patient_id : String) : Except ApiError StoredPatient :=
  match List.lookup patient_id store with
  | some record => .ok record
  | none => .error .notFound

/-- The request body of `PUT /update/{patient_id}`: every field optional,
`none` meaning absent from the request (`src/main.py` lines 36-42). -/
structure PatientUpdate where
  name : Option String := none
  city : Option String := none
  age : Option ℤ := none
  gender : Option String := none
  height : Option ℚ := none
  weight : Option ℚ := none
deriving Repr, DecidableEq

/-- The merge loop of `update_patient` (`src/main.py` lines 110-116): each field
present in `patient_update.model_dump(exclude_unset=True)` overwrites the
corresponding key of the existing record's dict; the merged dict (whose stale
`bmi`/`verdict` keys are ignored by `Patient(**existing_patient)`, pydantic's
default being to ignore extras) is handed to the `Patient` constructor. -/
def mergeUpdate (patient_id : String) (existing : StoredPatient) (u : PatientUpdate) :
    Except (List String) Patient :=
  Patient.validate patient_id
    (u.name.getD existing.name) (u.city.getD existing.city)
    (u.age.getD existing.age) (u.gender.getD existing.gender)
    (u.height.getD existing.height) (u.weight.getD existing.weight)

/-- `POST /create` (`src/main.py` lines 89-99).  FastAPI first validates the
`Patient` body, then the handler rejects a duplicate id, else stores
`model_dump(exclude=['id'])` under the id (a new dict key is appended in
iteration order) and saves. -/
def create_patient (store : Store) (id name city : String) (age : ℤ) (gender : String)
    (height weight : ℚ) : Except ApiError Store :=
  match Patient.validate id name city age gender height weight with
  | .error errs => .error (.validation errs)
  | .ok patient =>
    match List.lookup patient.id store with
    | some _ => .error .conflict
    | none => .ok (store ++ [(patient.id, patient.model_dump)])

/-- `PUT /update/{patient_id}` (`src/main.py` lines 101-123): 404 if the id is
absent, else merge the partial update, re-validate through the `Patient`
constructor, and store the re-derived `model_dump` under the same key. -/
def update_patient (store : Store) (patient_id : String) (u : PatientUpdate) :
    Except ApiError Store :=
  match List.lookup patient_id store with
  | none => .error .notFound
  | some existing =>
    match mergeUpdate patient_id existing u with
    | .error errs => .error (.validation errs)
    | .ok patient =>
      .ok (store.map fun e => if e.1 = patient_id then (patient_id, patient.model_dump) else e)

/-- `DELETE /delete/{patient_id}` (`src/main.py` lines 126-134). -/
def delete_patient (store : Store) (patient_id : String) : Except ApiError Store :=
  match List.lookup patient_id store with
  | none => .error .notFound
  | some _ => .ok (store.filter fun e => e.1 ≠ patient_id)

/-- The sort fields accepted by `GET /sort` (`src/main.py` line 74). -/
def valid_fields : List String := ["height", "weight", "bmi"]

/-- The sort key `x.get(sort_by, 0)` of `src/main.py` line 85, on a stored
record (every stored record carries the three sortable keys; the default `0`
applies to any other name). -/
def sortKey (sort_by : String) (r : StoredPatient) : ℚ :=
  if sort_by = "height" then r.height
  else if sort_by = "weight" then r.weight
  else if sort_by = "bmi" then r.bmi
  else 0

/-- `GET /sort` (`src/main.py` lines 69-87): validate `sort_by` and `order`,
then return `sorted(data.values(), key=..., reverse=order=='desc')`.  Python's
`sorted` is a stable sort; `reverse=True` keeps equal elements in their
original order, which is exactly a stable sort by the reversed comparison, so
both branches are modelled by the stable `List.insertionSort`. -/
def sort_patient (store : Store) (sort_by : String) (order : String) :
    Except ApiError (List StoredPatient) :=
  if sort_by ∉ valid_fields then
    .error (.invalidArgument "Invalid sort please select from valid_fields")
  else if order ∉ ["asc", "desc"] then
    .error (.invalidArgument "Order should be asc or desc")
  else
    let values := store.map Prod.snd
    .ok (if order = "desc" then
          values.insertionSort (fun a b => sortKey sort_by b ≤ sortKey sort_by a)
        else
          values.insertionSort (fun a b => sortKey sort_by a ≤ sortKey sort_by b))

/-- The `/sort` endpoint with its query-parameter default `order='asc'`
(`src/main.py` line 72): an absent `order` means `"asc"`. -/
def sort_endpoint (store : Store) (sort_by : String) (order : Option String) :
    Except ApiError (List StoredPatient) :=
  sort_patient store sort_by (order.getD "asc")

/-- One mutating request against the service. -/
inductive Op where
  | create (id name city : String) (age : ℤ) (gender : String) (height weight : ℚ)
  | update (patient_id : String) (u : PatientUpdate)
  | delete (patient_id : String)

/-- A failed request raises `HTTPException` before `save_data`, so the
persisted document is unchanged; a successful one saves the new document. -/
def applyOp (store : Store) : Op → Store
  | .create id name city age gender height weight =>
    match create_patient store id name city age gender height weight with
    | .ok s => s
    | .error _ => store
  | .update patient_id u =>
    match update_patient store patient_id u with
    | .ok s => s
    | .error _ => store
  | .delete patient_id =>
    match delete_patient store patient_id with
    | .ok s => s
    | .error _ => store

/-- The persisted document after a sequence of mutating requests. -/
def applyOps (ops : List Op) (store : Store) : Store := ops.foldl applyOp store

/-- The constraints the code actually enforces on a stored record, plus the
consistency of its derived fields with its stored measurements. -/
def StoredPatient.consistent (r : StoredPatient) : Prop :=
  0 < r.age ∧ r.age < 120 ∧ r.gender ∈ genders ∧ 0 < r.height ∧ 0 < r.weight ∧
  r.bmi = round2 (r.weight / r.height ^ 2) ∧ r.verdict = verdict_of r.bmi

instance (r : StoredPatient) : Decidable r.consistent := by
  unfold StoredPatient.consistent; infer_instance

/-- Modelled from the spec: the §3 field constraints on a stored record, as the
spec states them — including the non-empty-string constraints on `name` and
`city` that the code's plain `str` fields do not enforce. -/
def specRecordOk (r : StoredPatient) : Prop :=
  r.name ≠ "" ∧ r.city ≠ "" ∧ 0 < r.age ∧ r.age < 120 ∧ r.gender ∈ genders ∧
  0 < r.height ∧ 0 < r.weight

instance (r : StoredPatient) : Decidable (specRecordOk r) := by
  unfold specRecordOk; infer_instance

/-- The store invariant: distinct ids, every record consistent. -/
def storeInv (store : Store) : Prop :=
  (store.map Prod.fst).Nodup ∧ ∀ e ∈ store, StoredPatient.consistent e.2

/-- Modelled from the spec: the verdict bucket table of §4.2, written exactly
as the claim states it, for comparison with `verdict_of`. -/
def specBucket (bmi : ℚ) : String :=
  if bmi < 18.5 then "Underweight"
  else if 18.5 ≤ bmi ∧ bmi < 24.9 then "Normal weight"
  else if 25 ≤ bmi ∧ bmi < 29.9 then "Overweight"
  else "Obesity"

/-! ### Helper lemmas about association-list lookups -/

theorem lookup_forall_ne {β : Type} (l : List (String × β)) (k : String)
    (h : List.lookup k l = none) : ∀ e ∈ l, e.1 ≠ k := by
  induction l with
  | nil => simp
  | cons e t ih =>
    obtain ⟨a, b⟩ := e
    by_cases hk : k = a
    · subst hk; simp [List.lookup] at h
    · simp only [List.lookup, beq_eq_false_iff_ne, ne_eq,
        show (k == a) = false from beq_eq_false_iff_ne.2 hk] at h
      intro x hx
      rcases List.mem_cons.1 hx with rfl | hx
      · exact fun hc => hk hc.symm
      · exact ih h x hx

theorem not_mem_keys_of_lookup_none {β : Type} (l : List (String × β)) (k : String)
    (h : List.lookup k l = none) : k ∉ l.map Prod.fst := by
  intro hk
  obtain ⟨e, he, hek⟩ := List.mem_map.1 hk
  exact lookup_forall_ne l k h e he hek

theorem mem_of_lookup_some {β : Type} {l : List (String × β)} {k : String} {v : β}
    (h : List.lookup k l = some v) : (k, v) ∈ l := by
  induction l with
  | nil => simp [List.lookup] at h
  | cons e t ih =>
    obtain ⟨a, b⟩ := e
    by_cases hk : k = a
    · subst hk
      simp [List.lookup] at h
      simp [h]
    · simp only [List.lookup,
        show (k == a) = false from beq_eq_false_iff_ne.2 hk] at h
      exact List.mem_cons_of_mem _ (ih h)

theorem lookup_map_replace_self {β : Type} {l : List (String × β)} {pid : String} {r : β}
    (v : β) (h : List.lookup pid l = some r) :
    List.lookup pid (l.map fun e => if e.1 = pid then (pid, v) else e) = some v := by
  induction l with
  | nil => simp [List.lookup] at h
  | cons e t ih =>
    obtain ⟨a, b⟩ := e
    rw [List.map_cons]
    by_cases hk : a = pid
    · subst hk
      rw [show (if ((a, b) : String × β).1 = a then (a, v) else (a, b)) = (a, v) from
        if_pos rfl]
      simp [List.lookup]
    · rw [show (if ((a, b) : String × β).1 = pid then (pid, v) else (a, b)) = (a, b) from
        if_neg hk]
      have hba : (pid == a) = false := beq_eq_false_iff_ne.2 (fun hc => hk hc.symm)
      have h' : List.lookup pid t = some r := by simpa [List.lookup, hba] using h
      simp [List.lookup, hba, ih h']

theorem lookup_map_replace_ne {β : Type} (l : List (String × β)) (pid : String) (v : β)
    (j : String) (h : j ≠ pid) :
    List.lookup j (l.map fun e => if e.1 = pid then (pid, v) else e) = List.lookup j l := by
  induction l with
  | nil => simp
  | cons e t ih =>
    obtain ⟨a, b⟩ := e
    rw [List.map_cons]
    by_cases hk : a = pid
    · subst hk
      rw [show (if ((a, b) : String × β).1 = a then (a, v) else (a, b)) = (a, v) from
        if_pos rfl]
      simp [List.lookup, show (j == a) = false from beq_eq_false_iff_ne.2 h, ih]
    · rw [show (if ((a, b) : String × β).1 = pid then (pid, v) else (a, b)) = (a, b) from
        if_neg hk]
      by_cases hj : j = a
      · subst hj
        simp [List.lookup]
      · simp [List.lookup, show (j == a) = false from beq_eq_false_iff_ne.2 hj, ih]

theorem map_fst_map_replace {β : Type} (l : List (String × β)) (pid : String) (v : β) :
    (l.map fun e => if e.1 = pid then (pid, v) else e).map Prod.fst = l.map Prod.fst := by
  induction l with
  | nil => simp
  | cons e t ih =>
    obtain ⟨a, b⟩ := e
    by_cases hk : a = pid
    · subst hk; simp [ih]
    · simp [hk, ih]

theorem lookup_filter_self {β : Type} (l : List (String × β)) (pid : String) :
    List.lookup pid (l.filter fun e => e.1 ≠ pid) = none := by
  induction l with
  | nil => simp
  | cons e t ih =>
    obtain ⟨a, b⟩ := e
    rw [List.filter_cons]
    by_cases hk : a = pid
    · subst hk
      simpa using ih
    · rw [show (decide (((a, b) : String × β).1 ≠ pid)) = true by simpa using hk]
      simp only [if_pos rfl]
      simpa [List.lookup, show (pid == a) = false from
        beq_eq_false_iff_ne.2 (fun hc => hk hc.symm)] using ih

theorem lookup_filter_ne {β : Type} (l : List (String × β)) (pid j : String) (h : j ≠ pid) :
    List.lookup j (l.filter fun e => e.1 ≠ pid) = List.lookup j l := by
  induction l with
  | nil => simp
  | cons e t ih =>
    obtain ⟨a, b⟩ := e
    rw [List.filter_cons]
    by_cases hk : a = pid
    · subst hk
      rw [show (decide (((a, b) : String × β).1 ≠ a)) = false by simp]
      simp only [Bool.false_eq_true, if_neg]
      simp only [decide_not] at ih
      simp [List.lookup, show (j == a) = false from beq_eq_false_iff_ne.2 h, ih]
    · rw [show (decide (((a, b) : String × β).1 ≠ pid)) = true by simpa using hk]
      simp only [if_pos rfl]
      by_cases hj : j = a
      · subst hj; simp [List.lookup]
      · simp only [decide_not] at ih
        simp [List.lookup, show (j == a) = false from beq_eq_false_iff_ne.2 hj, ih]

/-! ### Helper lemmas about validation -/

theorem validate_ok_inv {id name city : String} {age : ℤ} {gender : String}
    {height weight : ℚ} {p : Patient}
    (hv : Patient.validate id name city age gender height weight = .ok p) :
    p = ⟨id, name, city, age, gender, height, weight⟩ ∧
    0 < age ∧ age < 120 ∧ gender ∈ genders ∧ 0 < height ∧ 0 < weight := by
  by_cases h1 : 0 < age ∧ age < 120 <;>
  by_cases h2 : gender ∈ genders <;>
  by_cases h3 : 0 < height <;>
  by_cases h4 : 0 < weight <;>
  simp_all [Patient.validate, patientErrors]

theorem validate_error_of_not_ok {id name city : String} {age : ℤ} {gender : String}
    {height weight : ℚ}
    (h : ¬(0 < age ∧ age < 120 ∧ gender ∈ genders ∧ 0 < height ∧ 0 < weight)) :
    Patient.validate id name city age gender height weight =
      .error (patientErrors age gender height weight) := by
  by_cases h1 : 0 < age ∧ age < 120 <;>
  by_cases h2 : gender ∈ genders <;>
  by_cases h3 : 0 < height <;>
  by_cases h4 : 0 < weight <;>
  simp_all [Patient.validate, patientErrors]

theorem model_dump_consistent (p : Patient)
    (h1 : 0 < p.age) (h2 : p.age < 120) (h3 : p.gender ∈ genders)
    (h4 : 0 < p.height) (h5 : 0 < p.weight) : p.model_dump.consistent :=
  ⟨h1, h2, h3, h4, h5, rfl, rfl⟩

/-! ### Stability of the stable sort: filtering by a class of equivalent keys
commutes with sorting -/

theorem filter_orderedInsert_pos {α : Type} (r : α → α → Prop) [DecidableRel r]
    (p : α → Bool) (a : α) (l : List α) (hpa : p a = true)
    (hall : ∀ b ∈ l, p b = true → r a b) :
    (l.orderedInsert r a).filter p = a :: l.filter p := by
  induction l with
  | nil => simp [List.orderedInsert, hpa]
  | cons c cs ih =>
    rw [List.orderedInsert]
    by_cases hr : r a c
    · simp [List.filter_cons, hr, hpa]
    · rw [if_neg hr, List.filter_cons, List.filter_cons]
      have hpc : p c = false := by
        cases hc : p c with
        | false => rfl
        | true => exact absurd (hall c (List.mem_cons_self c cs) hc) hr
      simp only [hpc, Bool.false_eq_true, if_neg]
      exact ih fun b hb => hall b (List.mem_cons_of_mem c hb)

theorem filter_orderedInsert_neg {α : Type} (r : α → α → Prop) [DecidableRel r]
    (p : α → Bool) (a : α) (l : List α) (hpa : p a = false) :
    (l.orderedInsert r a).filter p = l.filter p := by
  induction l with
  | nil => simp [List.orderedInsert, hpa]
  | cons c cs ih =>
    rw [List.orderedInsert]
    by_cases hr : r a c
    · simp [List.filter_cons, hr, hpa]
    · rw [if_neg hr, List.filter_cons, List.filter_cons]
      cases hc : p c with
      | false => simpa [hc] using ih
      | true => simpa [hc] using ih

theorem filter_insertionSort {α : Type} (r : α → α → Prop) [DecidableRel r]
    (p : α → Bool) (l : List α) (hp : ∀ a b, p a = true → p b = true → r a b) :
    (l.insertionSort r).filter p = l.filter p := by
  induction l with
  | nil => rfl
  | cons a t ih =>
    rw [List.insertionSort]
    cases hpa : p a with
    | true =>
      rw [filter_orderedInsert_pos r p a (t.insertionSort r) hpa
        (fun b _ hb => hp a b hpa hb)]
      rw [ih, List.filter_cons, hpa]
      simp
    | false =>
      rw [filter_orderedInsert_neg r p a (t.insertionSort r) hpa, ih,
        List.filter_cons, hpa]
      simp

/-! ### The store invariant is preserved by every operation -/

theorem storeInv_applyOp (store : Store) (h : storeInv store) (op : Op) :
    storeInv (applyOp store op) := by
  obtain ⟨hnd, hcons⟩ := h
  cases op with
  | create id name city age gender height weight =>
    rw [applyOp]
    cases hc : create_patient store id name city age gender height weight with
    | error e => exact ⟨hnd, hcons⟩
    | ok s =>
      dsimp only
      rw [create_patient] at hc
      cases hv : Patient.validate id name city age gender height weight with
      | error errs => rw [hv] at hc; simp at hc
      | ok patient =>
        rw [hv] at hc
        dsimp only at hc
        obtain ⟨hpeq, h1, h2, h3, h4, h5⟩ := validate_ok_inv hv
        cases hl : List.lookup patient.id store with
        | some r => rw [hl] at hc; simp at hc
        | none =>
          rw [hl] at hc
          dsimp only at hc
          injection hc with hc
          subst hc
          constructor
          · rw [List.map_append]
            simp only [List.map_cons, List.map_nil]
            rw [List.nodup_append]
            refine ⟨hnd, List.nodup_singleton _, ?_⟩
            intro x hx hy
            simp only [List.mem_singleton] at hy
            subst hy
            exact not_mem_keys_of_lookup_none store patient.id hl hx
          · intro e he
            rcases List.mem_append.1 he with he | he
            · exact hcons e he
            · simp only [List.mem_singleton] at he
              subst he
              exact model_dump_consistent patient (hpeq ▸ h1) (hpeq ▸ h2) (hpeq ▸ h3)
                (hpeq ▸ h4) (hpeq ▸ h5)
  | update patient_id u =>
    rw [applyOp]
    cases hc : update_patient store patient_id u with
    | error e => exact ⟨hnd, hcons⟩
    | ok s =>
      dsimp only
      rw [update_patient] at hc
      cases hl : List.lookup patient_id store with
      | none => rw [hl] at hc; simp at hc
      | some existing =>
        rw [hl] at hc
        dsimp only at hc
        cases hv : mergeUpdate patient_id existing u with
        | error errs => rw [hv] at hc; simp at hc
        | ok patient =>
          rw [hv] at hc
          dsimp only at hc
          injection hc with hc
          subst hc
          rw [mergeUpdate] at hv
          obtain ⟨hpeq, h1, h2, h3, h4, h5⟩ := validate_ok_inv hv
          constructor
          · rw [map_fst_map_replace]
            exact hnd
          · intro e he
            obtain ⟨x, hx, hxe⟩ := List.mem_map.1 he
            by_cases hxp : x.1 = patient_id
            · rw [if_pos hxp] at hxe
              subst hxe
              exact model_dump_consistent patient (hpeq ▸ h1) (hpeq ▸ h2) (hpeq ▸ h3)
                (hpeq ▸ h4) (hpeq ▸ h5)
            · rw [if_neg hxp] at hxe
              subst hxe
              exact hcons x hx
  | delete patient_id =>
    rw [applyOp]
    cases hc : delete_patient store patient_id with
    | error e => exact ⟨hnd, hcons⟩
    | ok s =>
      dsimp only
      rw [delete_patient] at hc
      cases hl : List.lookup patient_id store with
      | none => rw [hl] at hc; simp at hc
      | some r =>
        rw [hl] at hc
        dsimp only at hc
        injection hc with hc
        subst hc
        constructor
        · exact List.Nodup.sublist (List.Sublist.map Prod.fst (List.filter_sublist store)) hnd
        · intro e he
          exact hcons e (List.mem_of_mem_filter he)

theorem storeInv_applyOps (ops : List Op) (store : Store) (h : storeInv store) :
    storeInv (applyOps ops store) := by
  induction ops generalizing store with
  | nil => exact h
  | cons op t ih => exact ih (applyOp store op) (storeInv_applyOp store h op)

theorem storeInv_empty : storeInv [] := ⟨List.nodup_nil, by simp⟩

end PatientsApp

deriving instance DecidableEq for Except

namespace PatientsApp

/-! ### The claims -/

/-- C1: for every patient record with height > 0 and weight > 0, the derived
`bmi` equals `round(weight / height^2, 2)`; `bmi` is not an input field of
`Patient` (the structure has none) and the stored `bmi` produced by
`model_dump` is recomputed from the stored height and weight. -/
theorem claim_C1_bmi_recomputed (p : Patient) (hh : 0 < p.height) (hw : 0 < p.weight) :
    p.bmi = round2 (p.weight / p.height ^ 2) ∧
    p.model_dump.bmi = round2 (p.model_dump.weight / p.model_dump.height ^ 2) :=
  ⟨rfl, rfl⟩

theorem claim_C1_witness :
    0 < (Patient.mk "P001" "John Doe" "New York" 30 "male" 2 80).height ∧
    0 < (Patient.mk "P001" "John Doe" "New York" 30 "male" 2 80).weight ∧
    ((Patient.mk "P001" "John Doe" "New York" 30 "male" 2 80).bmi =
      round2 ((Patient.mk "P001" "John Doe" "New York" 30 "male" 2 80).weight /
        (Patient.mk "P001" "John Doe" "New York" 30 "male" 2 80).height ^ 2) ∧
    (Patient.mk "P001" "John Doe" "New York" 30 "male" 2 80).model_dump.bmi =
      round2 ((Patient.mk "P001" "John Doe" "New York" 30 "male" 2 80).model_dump.weight /
        (Patient.mk "P001" "John Doe" "New York" 30 "male" 2 80).model_dump.height ^ 2)) :=
  ⟨by norm_num, by norm_num,
    claim_C1_bmi_recomputed (Patient.mk "P001" "John Doe" "New York" 30 "male" 2 80)
      (by norm_num) (by norm_num)⟩

/-- C2: for every patient record with height > 0 and weight > 0, the derived
verdict equals the claimed bucket table applied to the rounded bmi
(`specBucket`, written exactly as the claim states it), and in particular a
bmi in [24.9, 25) yields "Obesity". -/
theorem claim_C2_verdict_buckets (p : Patient) (hh : 0 < p.height) (hw : 0 < p.weight) :
    p.verdict = specBucket p.bmi ∧
    (24.9 ≤ p.bmi → p.bmi < 25 → p.verdict = "Obesity") := by
  constructor
  · rfl
  · intro h1 h2
    rw [Patient.verdict, verdict_of]
    split_ifs with a b c
    · linarith
    · linarith [b.2]
    · linarith [c.1]
    · rfl

theorem claim_C2_witness :
    0 < (Patient.mk "P001" "John Doe" "New York" 30 "male" 2 80).height ∧
    0 < (Patient.mk "P001" "John Doe" "New York" 30 "male" 2 80).weight ∧
    ((Patient.mk "P001" "John Doe" "New York" 30 "male" 2 80).verdict =
        specBucket (Patient.mk "P001" "John Doe" "New York" 30 "male" 2 80).bmi ∧
      (24.9 ≤ (Patient.mk "P001" "John Doe" "New York" 30 "male" 2 80).bmi →
        (Patient.mk "P001" "John Doe" "New York" 30 "male" 2 80).bmi < 25 →
        (Patient.mk "P001" "John Doe" "New York" 30 "male" 2 80).verdict = "Obesity")) :=
  ⟨by norm_num, by norm_num,
    claim_C2_verdict_buckets (Patient.mk "P001" "John Doe" "New York" 30 "male" 2 80)
      (by norm_num) (by norm_num)⟩

/-- C3 counterexample: the claim says construction fails with a
`ValidationError` when `name` or `city` is the empty string, but `name` and
`city` are plain `str` fields without a non-empty constraint, so creating a
patient with empty name and city succeeds (and is persisted). -/
theorem claim_C3_counterexample :
    create_patient [] "P001" "" "" 30 "male" 2 80 =
      .ok [("P001", ⟨"", "", 30, "male", 2, 80, 20, "Normal weight"⟩)] := by
  with_unfolding_all decide

/-- C3 amended: construction validates `age` (exclusive range (0, 120)),
`gender` (enum membership), `height > 0` and `weight > 0`, failing with a
`ValidationError` that names exactly the offending fields; `name` and `city`
accept any string, including the empty string. -/
theorem claim_C3_validation_amended (id name city : String) (age : ℤ) (gender : String)
    (height weight : ℚ) :
    (Patient.validate id name city age gender height weight =
        .ok ⟨id, name, city, age, gender, height, weight⟩ ↔
      (0 < age ∧ age < 120 ∧ gender ∈ genders ∧ 0 < height ∧ 0 < weight)) ∧
    (Patient.validate id name city age gender height weight =
        .error (patientErrors age gender height weight) ↔
      ¬(0 < age ∧ age < 120 ∧ gender ∈ genders ∧ 0 < height ∧ 0 < weight)) ∧
    ("age" ∈ patientErrors age gender height weight ↔ ¬(0 < age ∧ age < 120)) ∧
    ("gender" ∈ patientErrors age gender height weight ↔ gender ∉ genders) ∧
    ("height" ∈ patientErrors age gender height weight ↔ ¬0 < height) ∧
    ("weight" ∈ patientErrors age gender height weight ↔ ¬0 < weight) := by
  by_cases h1 : 0 < age ∧ age < 120 <;>
  by_cases h2 : gender ∈ genders <;>
  by_cases h3 : 0 < height <;>
  by_cases h4 : 0 < weight <;>
  simp_all [Patient.validate, patientErrors]

/-- A sample stored record (bmi 80 / 2² = 20, "Normal weight"), for witnesses. -/
def r80 : StoredPatient := ⟨"John Doe", "New York", 30, "male", 2, 80, 20, "Normal weight"⟩

/-- The record `r80` after an update to weight 90 (bmi 22.5), for witnesses. -/
def r90 : StoredPatient := ⟨"John Doe", "New York", 30, "male", 2, 90, 22.5, "Normal weight"⟩

/-- A second sample stored record (bmi 60 / 1.6² rounded = 23.44), for witnesses. -/
def rB : StoredPatient := ⟨"Jane Doe", "Boston", 40, "female", 1.6, 60, 23.44, "Normal weight"⟩

/-- The partial update that sets only the weight, to 90, for witnesses. -/
def w90 : PatientUpdate := { weight := some 90 }

/-- C4: a successful partial update stores, under the updated id, the record
whose every field is the update's value when present and the previous record's
value when absent (`Option.getD`), with bmi and verdict recomputed from the
merged height/weight, and it leaves every other id's record untouched. -/
theorem claim_C4_update_merge (store : Store) (pid : String) (u : PatientUpdate)
    (r : StoredPatient) (store' : Store)
    (hr : List.lookup pid store = some r)
    (hok : update_patient store pid u = .ok store') :
    ∃ m : StoredPatient,
      List.lookup pid store' = some m ∧
      m.name = u.name.getD r.name ∧ m.city = u.city.getD r.city ∧
      m.age = u.age.getD r.age ∧ m.gender = u.gender.getD r.gender ∧
      m.height = u.height.getD r.height ∧ m.weight = u.weight.getD r.weight ∧
      m.bmi = round2 (m.weight / m.height ^ 2) ∧
      m.verdict = verdict_of m.bmi ∧
      ∀ j, j ≠ pid → List.lookup j store' = List.lookup j store := by
  rw [update_patient, hr] at hok
  dsimp only at hok
  cases hv : mergeUpdate pid r u with
  | error errs => rw [hv] at hok; simp at hok
  | ok patient =>
    rw [hv] at hok
    dsimp only at hok
    injection hok with hok
    subst hok
    rw [mergeUpdate] at hv
    obtain ⟨hpeq, h1, h2, h3, h4, h5⟩ := validate_ok_inv hv
    subst hpeq
    exact ⟨_, lookup_map_replace_self _ hr, rfl, rfl, rfl, rfl, rfl, rfl, rfl, rfl,
      fun j hj => lookup_map_replace_ne store pid _ j hj⟩

theorem claim_C4_witness :
    List.lookup "P001" [("P001", r80)] = some r80 ∧
    update_patient [("P001", r80)] "P001" w90 = .ok [("P001", r90)] ∧
    ∃ m : StoredPatient,
      List.lookup "P001" [("P001", r90)] = some m ∧
      m.name = w90.name.getD r80.name ∧ m.city = w90.city.getD r80.city ∧
      m.age = w90.age.getD r80.age ∧ m.gender = w90.gender.getD r80.gender ∧
      m.height = w90.height.getD r80.height ∧ m.weight = w90.weight.getD r80.weight ∧
      m.bmi = round2 (m.weight / m.height ^ 2) ∧
      m.verdict = verdict_of m.bmi ∧
      ∀ j, j ≠ "P001" → List.lookup j [("P001", r90)] = List.lookup j [("P001", r80)] :=
  ⟨by with_unfolding_all decide, by with_unfolding_all decide,
    claim_C4_update_merge [("P001", r80)] "P001" w90 r80 [("P001", r90)]
      (by with_unfolding_all decide) (by with_unfolding_all decide)⟩

/-- C5 counterexample: the claim demands that every persisted record satisfy
all field constraints of spec §3, which include non-empty `name` and `city`;
but a create request with empty name and city is accepted, so the store
reached by that single operation holds a record violating §3
(`specRecordOk`, the §3 constraints as the spec states them). -/
theorem claim_C5_counterexample :
    ¬ ∀ e ∈ applyOps [Op.create "P001" "" "" 30 "male" 2 80] [], specRecordOk e.2 := by
  with_unfolding_all decide

/-- C5 amended: after every sequence of create/update/delete operations on the
initially empty store, every persisted record satisfies the constraints the
code enforces (age in the exclusive range (0, 120), gender in the enum,
height > 0, weight > 0 — but not the spec's non-empty name/city), the ids are
unique, and each record's stored bmi and verdict are consistent with its
stored height and weight. -/
theorem claim_C5_invariant_amended (ops : List Op) : storeInv (applyOps ops []) :=
  storeInv_applyOps ops [] storeInv_empty

/-- C6: creating a record whose (validly formed) body carries an id already
present fails with the conflict error, and the persisted store — in
particular the existing record under that id — is unchanged. -/
theorem claim_C6_create_conflict (store : Store) (id name city : String) (age : ℤ)
    (gender : String) (height weight : ℚ) (r : StoredPatient)
    (hv : (Patient.validate id name city age gender height weight).isOk = true)
    (hr : List.lookup id store = some r) :
    create_patient store id name city age gender height weight = .error .conflict ∧
    applyOp store (.create id name city age gender height weight) = store := by
  obtain ⟨p, hp⟩ : ∃ p, Patient.validate id name city age gender height weight = .ok p := by
    cases h : Patient.validate id name city age gender height weight with
    | ok p => exact ⟨p, rfl⟩
    | error e => rw [h] at hv; simp [Except.isOk, Except.toBool] at hv
  obtain ⟨hpeq, -⟩ := validate_ok_inv hp
  have hcreate : create_patient store id name city age gender height weight =
      .error .conflict := by
    rw [create_patient, hp]
    dsimp only
    rw [show p.id = id from by rw [hpeq], hr]
  exact ⟨hcreate, by rw [applyOp, hcreate]⟩

theorem claim_C6_witness :
    ((Patient.validate "P001" "X" "Y" 50 "other" 2 80).isOk = true ∧
      List.lookup "P001" [("P001", r80)] = some r80) ∧
    create_patient [("P001", r80)] "P001" "X" "Y" 50 "other" 2 80 = .error .conflict ∧
    applyOp [("P001", r80)] (.create "P001" "X" "Y" 50 "other" 2 80) = [("P001", r80)] :=
  ⟨⟨by with_unfolding_all decide, by with_unfolding_all decide⟩,
    claim_C6_create_conflict [("P001", r80)] "P001" "X" "Y" 50 "other" 2 80 r80
      (by with_unfolding_all decide) (by with_unfolding_all decide)⟩

/-- C7: get, update and delete on an id absent from the store each fail with
the not-found error, and neither update nor delete changes the persisted
store (no save is performed). -/
theorem claim_C7_not_found (store : Store) (pid : String) (u : PatientUpdate)
    (h : List.lookup pid store = none) :
    view_patient store pid = .error .notFound ∧
    update_patient store pid u = .error .notFound ∧
    delete_patient store pid = .error .notFound ∧
    applyOp store (.update pid u) = store ∧
    applyOp store (.delete pid) = store := by
  have h1 : view_patient store pid = .error .notFound := by rw [view_patient, h]
  have h2 : update_patient store pid u = .error .notFound := by rw [update_patient, h]
  have h3 : delete_patient store pid = .error .notFound := by rw [delete_patient, h]
  exact ⟨h1, h2, h3, by rw [applyOp, h2], by rw [applyOp, h3]⟩

theorem claim_C7_witness :
    List.lookup "P002" [("P001", r80)] = none ∧
    (view_patient [("P001", r80)] "P002" = .error .notFound ∧
      update_patient [("P001", r80)] "P002" w90 = .error .notFound ∧
      delete_patient [("P001", r80)] "P002" = .error .notFound ∧
      applyOp [("P001", r80)] (.update "P002" w90) = [("P001", r80)] ∧
      applyOp [("P001", r80)] (.delete "P002") = [("P001", r80)]) :=
  ⟨by with_unfolding_all decide,
    claim_C7_not_found [("P001", r80)] "P002" w90 (by with_unfolding_all decide)⟩

/-- C8: `/sort` rejects a sort field outside {height, weight, bmi} and an
order outside {asc, desc} with the invalid-argument error; otherwise it
returns the stored records (`data.values()`) ordered by the numeric value of
the field — ascending for `asc` (and when the order parameter is absent,
whose default is `asc`), descending for `desc` — as a permutation of the
stored values that is stable: filtering the output by any key value gives the
same subsequence as filtering the input. -/
theorem claim_C8_sort (store : Store) (f o : String) :
    (f ∉ valid_fields → ∃ d, sort_patient store f o = .error (.invalidArgument d)) ∧
    (f ∈ valid_fields → o ∉ ["asc", "desc"] →
      ∃ d, sort_patient store f o = .error (.invalidArgument d)) ∧
    sort_endpoint store f none = sort_patient store f "asc" ∧
    (f ∈ valid_fields → o ∈ ["asc", "desc"] →
      ∃ l, sort_patient store f o = .ok l ∧
        l.Perm (store.map Prod.snd) ∧
        (o = "asc" → l.Sorted fun a b => sortKey f a ≤ sortKey f b) ∧
        (o = "desc" → l.Sorted fun a b => sortKey f b ≤ sortKey f a) ∧
        ∀ k : ℚ, (l.filter fun x => decide (sortKey f x = k)) =
          ((store.map Prod.snd).filter fun x => decide (sortKey f x = k))) := by
  refine ⟨?_, ?_, rfl, ?_⟩
  · intro hf
    exact ⟨_, by rw [sort_patient, if_pos hf]⟩
  · intro hf ho
    exact ⟨_, by rw [sort_patient, if_neg (not_not_intro hf), if_pos ho]⟩
  · intro hf ho
    rw [sort_patient, if_neg (not_not_intro hf), if_neg (not_not_intro ho)]
    dsimp only
    haveI hta : IsTotal StoredPatient (fun a b => sortKey f a ≤ sortKey f b) :=
      ⟨fun a b => le_total _ _⟩
    haveI htra : IsTrans StoredPatient (fun a b => sortKey f a ≤ sortKey f b) :=
      ⟨fun _ _ _ hab hbc => le_trans hab hbc⟩
    haveI htd : IsTotal StoredPatient (fun a b => sortKey f b ≤ sortKey f a) :=
      ⟨fun a b => le_total _ _⟩
    haveI htrd : IsTrans StoredPatient (fun a b => sortKey f b ≤ sortKey f a) :=
      ⟨fun _ _ _ hab hbc => le_trans hbc hab⟩
    by_cases hdesc : o = "desc"
    · subst hdesc
      rw [if_pos rfl]
      refine ⟨_, rfl, List.perm_insertionSort _ _, fun h => ?_, fun _ => ?_, fun k => ?_⟩
      · exact absurd h (by decide)
      · exact List.sorted_insertionSort _ _
      · exact filter_insertionSort _ _ _ (fun a b ha hb =>
          le_of_eq ((of_decide_eq_true hb).trans (of_decide_eq_true ha).symm))
    · have hasc : o = "asc" := by
        rcases (by simpa using ho : o = "asc" ∨ o = "desc") with h | h
        · exact h
        · exact absurd h hdesc
      subst hasc
      rw [if_neg hdesc]
      refine ⟨_, rfl, List.perm_insertionSort _ _, fun _ => ?_, fun h => ?_, fun k => ?_⟩
      · exact List.sorted_insertionSort _ _
      · exact absurd h hdesc
      · exact filter_insertionSort _ _ _ (fun a b ha hb =>
          le_of_eq ((of_decide_eq_true ha).trans (of_decide_eq_true hb).symm))

/-- A stored record of height 1.5, for the sort witness. -/
def s15 : StoredPatient := ⟨"a", "a", 30, "male", 1.5, 60, 26.67, "Overweight"⟩

/-- A stored record of height 1.8, for the sort witness. -/
def s18 : StoredPatient := ⟨"b", "b", 30, "male", 1.8, 60, 18.52, "Normal weight"⟩

/-- A stored record of height 1.6, for the sort witness. -/
def s16 : StoredPatient := ⟨"c", "c", 30, "male", 1.6, 60, 23.44, "Normal weight"⟩

theorem claim_C8_witness :
    ("name" ∉ valid_fields ∧
      ∃ d, sort_patient [("A", s15), ("B", s18), ("C", s16)] "name" "asc" =
        .error (.invalidArgument d)) ∧
    ("height" ∈ valid_fields ∧ "asc" ∈ ["asc", "desc"] ∧
      ∃ l, sort_patient [("A", s15), ("B", s18), ("C", s16)] "height" "asc" = .ok l ∧
        l.Perm ([("A", s15), ("B", s18), ("C", s16)].map Prod.snd) ∧
        ("asc" = "asc" → l.Sorted fun a b => sortKey "height" a ≤ sortKey "height" b) ∧
        ("asc" = "desc" → l.Sorted fun a b => sortKey "height" b ≤ sortKey "height" a) ∧
        ∀ k : ℚ, (l.filter fun x => decide (sortKey "height" x = k)) =
          (([("A", s15), ("B", s18), ("C", s16)].map Prod.snd).filter
            fun x => decide (sortKey "height" x = k))) :=
  ⟨⟨by decide, (claim_C8_sort [("A", s15), ("B", s18), ("C", s16)] "name" "asc").1 (by decide)⟩,
    by decide, by decide,
    (claim_C8_sort [("A", s15), ("B", s18), ("C", s16)] "height" "asc").2.2.2
      (by decide) (by decide)⟩

/-- C9: the sort result is built only from the stored field objects
(`data.values()`): relabelling every patient id in the store by an arbitrary
function leaves the entire sort output unchanged, so the output carries no
identifier information; its elements are `StoredPatient` values, which have
no id field. -/
theorem claim_C9_sort_ignores_ids (store : Store) (g : String → String) (f o : String) :
    sort_patient (store.map fun e => (g e.1, e.2)) f o = sort_patient store f o := by
  have hvals : (store.map fun e => (g e.1, e.2)).map Prod.snd = store.map Prod.snd := by
    rw [List.map_map]
    exact List.map_congr_left fun e _ => rfl
  simp only [sort_patient, hvals]

/-- C10: deleting an id that is present removes exactly that entry: the result
is the store without it, the deleted id no longer resolves, every other id
still resolves to its unchanged record, and every other entry is still
present. -/
theorem claim_C10_delete_frame (store : Store) (pid : String) (r : StoredPatient)
    (h : List.lookup pid store = some r) :
    delete_patient store pid = .ok (store.filter fun e => e.1 ≠ pid) ∧
    List.lookup pid (store.filter fun e => e.1 ≠ pid) = none ∧
    (∀ j, j ≠ pid → List.lookup j (store.filter fun e => e.1 ≠ pid) = List.lookup j store) ∧
    (∀ e ∈ store, e.1 ≠ pid → e ∈ store.filter fun e => e.1 ≠ pid) := by
  refine ⟨by rw [delete_patient, h], lookup_filter_self store pid,
    fun j hj => lookup_filter_ne store pid j hj, fun e he hne => ?_⟩
  exact List.mem_filter.2 ⟨he, by simpa using hne⟩

theorem claim_C10_witness :
    List.lookup "P001" [("P001", r80), ("P002", rB)] = some r80 ∧
    (delete_patient [("P001", r80), ("P002", rB)] "P001" =
        .ok ([("P001", r80), ("P002", rB)].filter fun e => e.1 ≠ "P001") ∧
      List.lookup "P001" ([("P001", r80), ("P002", rB)].filter fun e => e.1 ≠ "P001") = none ∧
      (∀ j, j ≠ "P001" →
        List.lookup j ([("P001", r80), ("P002", rB)].filter fun e => e.1 ≠ "P001") =
          List.lookup j [("P001", r80), ("P002", rB)]) ∧
      (∀ e ∈ [("P001", r80), ("P002", rB)], e.1 ≠ "P001" →
        e ∈ [("P001", r80), ("P002", rB)].filter fun e => e.1 ≠ "P001")) :=
  ⟨by with_unfolding_all decide,
    claim_C10_delete_frame [("P001", r80), ("P002", rB)] "P001" r80
      (by with_unfolding_all decide)⟩

end PatientsApp
